import Mathlib

/-!
Verification of `ThresholdStrategy` from `flip_7/simulation/strategies/threshold.py`.

The strategy's own code is embedded faithfully below.  The data carriers
(`StrategyContext`, `OpponentInfo`, `NumberCard`) live outside the reviewed
source; their structures are modelled from the spec's field lists.
-/

/-- Modelled from the spec: `OpponentInfo` (external data carrier) exposes
`player_id`, `total_score`, `round_score`, `has_stayed`, `is_busted`. -/
structure OpponentInfo where
  player_id : String
  total_score : Int
  round_score : Int
  has_stayed : Bool
  is_busted : Bool
deriving DecidableEq, Repr

/-- Modelled from the spec: `StrategyContext` (external data carrier) exposes
`my_player_id`, `my_round_score`, `my_flip_three_active`, `my_flip_three_count`
and the ordered sequence `opponents`. -/
structure StrategyContext where
  my_player_id : String
  my_round_score : Int
  my_flip_three_active : Bool
  my_flip_three_count : Int
  opponents : List OpponentInfo
deriving DecidableEq, Repr

/-- Modelled from the spec: `NumberCard` is "a drawn card with at least a numeric
`value`".  Only the value is represented; object identity beyond the value is
not, so two cards are equal in the model exactly when their values are. -/
structure NumberCard where
  value : Int
deriving DecidableEq, Repr

/-- Configuration state of `ThresholdStrategy`: set in `__init__`, never mutated. -/
structure ThresholdStrategy where
  name : String
  target_score : Int
  distance_from_200 : Int
deriving DecidableEq, Repr

/-- The constructor: `name or ...` falls back to the default
`Threshold(target_score)` when `name` is `None` or empty (Python falsiness). -/
def thresholdInit (name : Option String) (target_score : Int := 100)
    (dist : Int := 0) : ThresholdStrategy :=
  { name :=
      match name with
      | none => ("Threshold(" ++ toString target_score ++ ")")
      | some n => if n = "" then ("Threshold(" ++ toString target_score ++ ")") else n
    target_score := target_score
    distance_from_200 := dist }

/-- The `for opponent in context.opponents` loop of `opponent_can_win`,
with its two early `return True` exits. -/
def opponentScan (s : ThresholdStrategy) : List OpponentInfo → Bool
  | [] => false
  | opp :: rest =>
    if opp.total_score ≥ 200 then true
    else if (!(opp.has_stayed || opp.is_busted)) &&
        (opp.total_score + opp.round_score ≥ 200 - s.distance_from_200) then true
    else opponentScan s rest

/-- Method `opponent_can_win` of `ThresholdStrategy`. -/
def ThresholdStrategy.opponent_can_win (s : ThresholdStrategy)
    (context : StrategyContext) : Bool :=
  opponentScan s context.opponents

/-- Method `decide_hit_or_stay` of `ThresholdStrategy`. -/
def ThresholdStrategy.decide_hit_or_stay (s : ThresholdStrategy)
    (context : StrategyContext) : Bool :=
  if context.my_flip_three_active && (context.my_flip_three_count > 0) then true
  else (context.my_round_score < s.target_score) || s.opponent_can_win context

/-- Method `decide_second_chance_discard`: returns `duplicate_cards[-1]`;
`none` models the `IndexError` Python raises on an empty list. -/
def ThresholdStrategy.decide_second_chance_discard (_s : ThresholdStrategy)
    (_context : StrategyContext) (_duplicate_value : Int)
    (duplicate_cards : List NumberCard) : Option NumberCard :=
  duplicate_cards.getLast?

/-- A Python `dict` as an insertion-ordered association list: inserting an
existing key updates its value in place, a new key is appended at the end. -/
def dictInsert (d : List (String × Int)) (k : String) (v : Int) :
    List (String × Int) :=
  match d with
  | [] => [(k, v)]
  | (k0, v0) :: rest => if k0 = k then (k, v) :: rest else (k0, v0) :: dictInsert rest k v

/-- The `keys()` view of a dict: keys in insertion order. -/
def dictKeys (d : List (String × Int)) : List String :=
  d.map Prod.fst

/-- Subscript `d[k]` as an `Option` (Python raises `KeyError` when absent). -/
def dictGet? : List (String × Int) → String → Option Int
  | [], _ => none
  | (k0, v0) :: rest, a => if k0 = a then some v0 else dictGet? rest a

/-- Python `max(xs, key=f)`: scans left to right keeping the current best,
replacing it only on a strictly larger key, so the first maximum wins;
`none` models the `ValueError` raised on an empty iterable. -/
def pyMaxByKey (f : String → Int) : List String → Option String
  | [] => none
  | x :: xs => some (xs.foldl (fun best y => if f best < f y then y else best) x)

/-- Method `decide_flip_three_target` of `ThresholdStrategy`.  The dict comprehension
`{opp.player_id: opp.total_score for opp in context.opponents if opp.player_id in opponent_ids}`
is the `foldl` of `dictInsert`; every key handed to the `max` key function occurs
in the dict, so the `getD 0` default is never consulted. -/
def ThresholdStrategy.decide_flip_three_target (_s : ThresholdStrategy)
    (context : StrategyContext) (possible_targets : List String) : Option String :=
  let opponent_ids :=
    (context.opponents.filter
      (fun opp => possible_targets.contains opp.player_id)).map
      (fun opp => opp.player_id)
  if opponent_ids.isEmpty then
    some context.my_player_id
  else
    let opponent_scores :=
      (context.opponents.filter
        (fun opp => opponent_ids.contains opp.player_id)).foldl
        (fun d opp => dictInsert d opp.player_id opp.total_score) []
    pyMaxByKey (fun pid => (dictGet? opponent_scores pid).getD 0)
      (dictKeys opponent_scores)

/-- Method `decide_freeze_target` of `ThresholdStrategy`. -/
def ThresholdStrategy.decide_freeze_target (s : ThresholdStrategy)
    (context : StrategyContext) (possible_targets : List String) : Option String :=
  if context.my_round_score ≥ s.target_score then
    some context.my_player_id
  else
    let opponent_ids :=
      (context.opponents.filter
        (fun opp => possible_targets.contains opp.player_id)).map
        (fun opp => opp.player_id)
    if opponent_ids.isEmpty then
      some context.my_player_id
    else
      let opponent_scores :=
        (context.opponents.filter
          (fun opp => opponent_ids.contains opp.player_id)).foldl
          (fun d opp => dictInsert d opp.player_id opp.total_score) []
      pyMaxByKey (fun pid => (dictGet? opponent_scores pid).getD 0)
        (dictKeys opponent_scores)

/-- One call the engine can make on the strategy. -/
inductive Call where
  | hitOrStay (context : StrategyContext)
  | secondChance (context : StrategyContext) (duplicate_value : Int)
      (duplicate_cards : List NumberCard)
  | flipThreeTarget (context : StrategyContext) (possible_targets : List String)
  | freezeTarget (context : StrategyContext) (possible_targets : List String)
  | canWin (context : StrategyContext)
deriving DecidableEq

/-- Result of a call. -/
inductive CallResult where
  | bool (b : Bool)
  | card (c : Option NumberCard)
  | pid (p : Option String)
deriving DecidableEq, Repr

/-- Executing one call: the method bodies contain no assignment to any `self`
field, so the post-call strategy state is the pre-call state. -/
def exec (s : ThresholdStrategy) : Call → ThresholdStrategy × CallResult
  | .hitOrStay context => (s, .bool (s.decide_hit_or_stay context))
  | .secondChance context v cards =>
      (s, .card (s.decide_second_chance_discard context v cards))
  | .flipThreeTarget context pts => (s, .pid (s.decide_flip_three_target context pts))
  | .freezeTarget context pts => (s, .pid (s.decide_freeze_target context pts))
  | .canWin context => (s, .bool (s.opponent_can_win context))

/-- State of the strategy after a sequence of calls. -/
def execTrace (s : ThresholdStrategy) (trace : List Call) : ThresholdStrategy :=
  trace.foldl (fun st c => (exec st c).1) s

/-! ## Helper lemmas -/

lemma opponentScan_iff (s : ThresholdStrategy) (l : List OpponentInfo) :
    opponentScan s l = true ↔
      ∃ opp ∈ l, 200 ≤ opp.total_score ∨
        (opp.has_stayed = false ∧ opp.is_busted = false ∧
          200 - s.distance_from_200 ≤ opp.total_score + opp.round_score) := by
  induction l with
  | nil => simp [opponentScan]
  | cons opp rest ih =>
    simp only [opponentScan]
    by_cases h1 : opp.total_score ≥ 200
    · rw [if_pos h1]
      constructor
      · intro _
        exact ⟨opp, List.mem_cons_self _ _, Or.inl h1⟩
      · intro _
        rfl
    · rw [if_neg h1]
      by_cases h2 : ((!(opp.has_stayed || opp.is_busted)) &&
          decide (opp.total_score + opp.round_score ≥ 200 - s.distance_from_200)) = true
      · rw [if_pos h2]
        simp only [Bool.and_eq_true, Bool.not_eq_true', Bool.or_eq_false_iff,
          decide_eq_true_eq] at h2
        constructor
        · intro _
          exact ⟨opp, List.mem_cons_self _ _, Or.inr ⟨h2.1.1, h2.1.2, h2.2⟩⟩
        · intro _
          rfl
      · rw [if_neg h2, ih]
        constructor
        · rintro ⟨o, ho, hP⟩
          exact ⟨o, List.mem_cons_of_mem _ ho, hP⟩
        · rintro ⟨o, ho, hP⟩
          rcases List.mem_cons.mp ho with rfl | ho2
          · exfalso
            rcases hP with hP | ⟨hs, hb, hdst⟩
            · exact h1 hP
            · exact h2 (by simp [hs, hb]; omega)
          · exact ⟨o, ho2, hP⟩

lemma opponentScan_mono (s s2 : ThresholdStrategy)
    (hd : s.distance_from_200 ≤ s2.distance_from_200) (l : List OpponentInfo)
    (h : opponentScan s l = true) : opponentScan s2 l = true := by
  rw [opponentScan_iff] at h ⊢
  obtain ⟨o, ho, hP⟩ := h
  refine ⟨o, ho, ?_⟩
  rcases hP with h | ⟨h1, h2, h3⟩
  · exact Or.inl h
  · exact Or.inr ⟨h1, h2, by omega⟩

lemma decide_hit_or_stay_of_inactive (s : ThresholdStrategy) (ctx : StrategyContext)
    (h : ctx.my_flip_three_active = false ∨ ctx.my_flip_three_count ≤ 0) :
    s.decide_hit_or_stay ctx =
      (decide (ctx.my_round_score < s.target_score) || s.opponent_can_win ctx) := by
  unfold ThresholdStrategy.decide_hit_or_stay
  rcases h with h | h
  · simp [h]
  · have hc : decide (ctx.my_flip_three_count > 0) = false := by
      simp only [decide_eq_false_iff_not, not_lt]
      omega
    simp [hc]

lemma exec_fst (s : ThresholdStrategy) (c : Call) : (exec s c).1 = s := by
  cases c <;> rfl

lemma execTrace_eq_self : ∀ (trace : List Call) (s : ThresholdStrategy),
    execTrace s trace = s
  | [], _ => rfl
  | c :: tr, s => by
    show execTrace ((exec s c).1) tr = s
    rw [exec_fst]
    exact execTrace_eq_self tr s

/-! ## Claims -/

/-- C1: with the forced draw inactive, `decide_hit_or_stay` returns true iff the
round score is below `target_score` or `opponent_can_win` holds. -/
theorem c1_hit_or_stay_iff (s : ThresholdStrategy) (ctx : StrategyContext)
    (h : ctx.my_flip_three_active = false ∨ ctx.my_flip_three_count ≤ 0) :
    s.decide_hit_or_stay ctx = true ↔
      (ctx.my_round_score < s.target_score ∨ s.opponent_can_win ctx = true) := by
  rw [decide_hit_or_stay_of_inactive s ctx h]
  simp

theorem c1_hit_or_stay_iff_witness :
    ((false : Bool) = false ∨ (0 : Int) ≤ 0) ∧
      (((⟨"T", 100, 0⟩ : ThresholdStrategy)).decide_hit_or_stay ⟨"p1", 120, false, 0,
          [⟨"p2", 150, 40, false, false⟩]⟩ = true ↔
        ((120 : Int) < ((⟨"T", 100, 0⟩ : ThresholdStrategy)).target_score ∨
          ((⟨"T", 100, 0⟩ : ThresholdStrategy)).opponent_can_win ⟨"p1", 120, false, 0,
            [⟨"p2", 150, 40, false, false⟩]⟩ = true)) :=
  ⟨Or.inl rfl,
    c1_hit_or_stay_iff ((⟨"T", 100, 0⟩ : ThresholdStrategy))
      ⟨"p1", 120, false, 0, [⟨"p2", 150, 40, false, false⟩]⟩ (Or.inl rfl)⟩

/-- C2: `opponent_can_win` returns true iff some opponent has banked at least 200,
or some still-active opponent (not stayed, not busted) has
`total_score + round_score ≥ 200 - distance_from_200`; the first condition
applies regardless of stayed/busted status. -/
theorem c2_opponent_can_win_iff (s : ThresholdStrategy) (ctx : StrategyContext) :
    s.opponent_can_win ctx = true ↔
      ∃ opp ∈ ctx.opponents, 200 ≤ opp.total_score ∨
        (opp.has_stayed = false ∧ opp.is_busted = false ∧
          200 - s.distance_from_200 ≤ opp.total_score + opp.round_score) :=
  opponentScan_iff s ctx.opponents

/-- C4: with the forced draw active (`my_flip_three_active` and a positive
`my_flip_three_count`), `decide_hit_or_stay` returns true unconditionally. -/
theorem c4_forced_draw_hits (s : ThresholdStrategy) (ctx : StrategyContext)
    (h1 : ctx.my_flip_three_active = true) (h2 : 0 < ctx.my_flip_three_count) :
    s.decide_hit_or_stay ctx = true := by
  unfold ThresholdStrategy.decide_hit_or_stay
  simp [h1, h2]

theorem c4_forced_draw_hits_witness :
    ((true : Bool) = true ∧ (0 : Int) < 3) ∧
      ((⟨"T", 100, 0⟩ : ThresholdStrategy)).decide_hit_or_stay
        ⟨"p1", 1000, true, 3, []⟩ = true :=
  ⟨⟨rfl, by decide⟩,
    c4_forced_draw_hits ((⟨"T", 100, 0⟩ : ThresholdStrategy))
      ⟨"p1", 1000, true, 3, []⟩ rfl (by decide)⟩

/-- C6: `decide_second_chance_discard` returns the last card of a non-empty
sequence; for sequences of length at least two it does not return the first
card whenever the first and last cards are distinguishable (cards are compared
by value in this model, so equal-valued first and last cards coincide). -/
theorem c6_discard_last (s : ThresholdStrategy) (ctx : StrategyContext) (v : Int)
    (c : NumberCard) (cs : List NumberCard) :
    s.decide_second_chance_discard ctx v (c :: cs)
      = some ((c :: cs).getLast (List.cons_ne_nil c cs)) ∧
    (cs ≠ [] → (c :: cs).getLast (List.cons_ne_nil c cs) ≠ c →
      s.decide_second_chance_discard ctx v (c :: cs) ≠ some c) := by
  have h1 : s.decide_second_chance_discard ctx v (c :: cs)
      = some ((c :: cs).getLast (List.cons_ne_nil c cs)) :=
    List.getLast?_eq_getLast_of_ne_nil (List.cons_ne_nil c cs)
  refine ⟨h1, ?_⟩
  intro _ hne heq
  rw [h1] at heq
  exact hne (Option.some.inj heq)

theorem c6_discard_last_witness :
    (((⟨"T", 100, 0⟩ : ThresholdStrategy)).decide_second_chance_discard
        ⟨"p1", 0, false, 0, []⟩ 3 [⟨3⟩, ⟨7⟩] = some ⟨7⟩) ∧
      (((⟨"T", 100, 0⟩ : ThresholdStrategy)).decide_second_chance_discard
        ⟨"p1", 0, false, 0, []⟩ 3 [⟨3⟩, ⟨7⟩] ≠ some ⟨3⟩) := by
  have h := c6_discard_last ((⟨"T", 100, 0⟩ : ThresholdStrategy))
    ⟨"p1", 0, false, 0, []⟩ 3 ⟨3⟩ [⟨7⟩]
  exact ⟨h.1, h.2 (by decide) (by decide)⟩

/-- C8: when the caller's round score has reached `target_score`,
`decide_freeze_target` returns the caller's own id for every target list. -/
theorem c8_freeze_self (s : ThresholdStrategy) (ctx : StrategyContext)
    (pts : List String) (h : s.target_score ≤ ctx.my_round_score) :
    s.decide_freeze_target ctx pts = some ctx.my_player_id := by
  unfold ThresholdStrategy.decide_freeze_target
  rw [if_pos h]

theorem c8_freeze_self_witness :
    (((⟨"T", 100, 0⟩ : ThresholdStrategy)).target_score ≤ (100 : Int)) ∧
      ((⟨"T", 100, 0⟩ : ThresholdStrategy)).decide_freeze_target
        ⟨"p1", 100, false, 0, [⟨"p2", 500, 0, false, false⟩]⟩ ["p2"]
        = some ("p1") :=
  ⟨by decide,
    c8_freeze_self ((⟨"T", 100, 0⟩ : ThresholdStrategy))
      ⟨"p1", 100, false, 0, [⟨"p2", 500, 0, false, false⟩]⟩ ["p2"] (by decide)⟩

/-- C9: no call mutates `target_score` or `distance_from_200` set by the
constructor, and the result of any call is independent of the call history. -/
theorem c9_pure_and_history_independent (nm : Option String) (t d : Int)
    (trace : List Call) (c : Call) :
    (execTrace (thresholdInit nm t d) trace).target_score = t ∧
    (execTrace (thresholdInit nm t d) trace).distance_from_200 = d ∧
    (exec (execTrace (thresholdInit nm t d) trace) c).2
      = (exec (thresholdInit nm t d) c).2 := by
  rw [execTrace_eq_self]
  exact ⟨rfl, rfl, rfl⟩

/-- C10: `opponent_can_win` is monotone in `distance_from_200` (with equal
`target_score`s, so is `decide_hit_or_stay` when the forced draw is inactive). -/
theorem c10_monotone_in_distance (s s2 : ThresholdStrategy) (ctx : StrategyContext)
    (ht : s.target_score = s2.target_score)
    (hd : s.distance_from_200 ≤ s2.distance_from_200) :
    (s.opponent_can_win ctx = true → s2.opponent_can_win ctx = true) ∧
    ((ctx.my_flip_three_active = false ∨ ctx.my_flip_three_count ≤ 0) →
      s.decide_hit_or_stay ctx = true → s2.decide_hit_or_stay ctx = true) := by
  constructor
  · exact fun h => opponentScan_mono s s2 hd ctx.opponents h
  · intro hin h
    rw [decide_hit_or_stay_of_inactive s ctx hin] at h
    rw [decide_hit_or_stay_of_inactive s2 ctx hin]
    simp only [Bool.or_eq_true, decide_eq_true_eq] at h ⊢
    rcases h with h | h
    · exact Or.inl (ht ▸ h)
    · exact Or.inr (opponentScan_mono s s2 hd ctx.opponents h)

theorem c10_monotone_in_distance_witness :
    (((⟨"T", 100, 0⟩ : ThresholdStrategy)).target_score
        = ((⟨"U", 100, 30⟩ : ThresholdStrategy)).target_score ∧
      ((⟨"T", 100, 0⟩ : ThresholdStrategy)).distance_from_200
        ≤ ((⟨"U", 100, 30⟩ : ThresholdStrategy)).distance_from_200) ∧
    ((((⟨"T", 100, 0⟩ : ThresholdStrategy)).opponent_can_win
          ⟨"p1", 120, false, 0, [⟨"p2", 150, 40, false, false⟩]⟩ = true →
        ((⟨"U", 100, 30⟩ : ThresholdStrategy)).opponent_can_win
          ⟨"p1", 120, false, 0, [⟨"p2", 150, 40, false, false⟩]⟩ = true) ∧
      ((false : Bool) = false ∨ (0 : Int) ≤ 0 →
        ((⟨"T", 100, 0⟩ : ThresholdStrategy)).decide_hit_or_stay
          ⟨"p1", 120, false, 0, [⟨"p2", 150, 40, false, false⟩]⟩ = true →
        ((⟨"U", 100, 30⟩ : ThresholdStrategy)).decide_hit_or_stay
          ⟨"p1", 120, false, 0, [⟨"p2", 150, 40, false, false⟩]⟩ = true)) :=
  ⟨⟨rfl, by decide⟩,
    c10_monotone_in_distance ((⟨"T", 100, 0⟩ : ThresholdStrategy))
      ((⟨"U", 100, 30⟩ : ThresholdStrategy))
      ⟨"p1", 120, false, 0, [⟨"p2", 150, 40, false, false⟩]⟩ rfl (by decide)⟩

/-- The eligible opponents of a context: those whose `player_id` occurs in
`possible_targets` (the filter both target-selection methods start from). -/
def eligibleOpponents (ctx : StrategyContext) (pts : List String) :
    List OpponentInfo :=
  ctx.opponents.filter (fun opp => pts.contains opp.player_id)

/-- Modelled from the spec: the selection rule of §4.3/§4.4 and §9 as a direct
linear scan — the eligible opponent with the highest `total_score`,
first-seen-wins on ties. -/
def firstMaxByTotalScore : List OpponentInfo → Option OpponentInfo
  | [] => none
  | o :: rest =>
    some (rest.foldl (fun best y =>
      if best.total_score < y.total_score then y else best) o)

lemma dictInsert_ne_nil (d : List (String × Int)) (k : String) (v : Int) :
    dictInsert d k v ≠ [] := by
  match d with
  | [] => simp [dictInsert]
  | (k0, v0) :: rest =>
    simp only [dictInsert]
    split <;> simp

lemma foldl_dictInsert_ne_nil :
    ∀ (l : List OpponentInfo) (d : List (String × Int)), d ≠ [] →
      l.foldl (fun d o => dictInsert d o.player_id o.total_score) d ≠ []
  | [], _, hd => hd
  | o :: rest, d, _ => by
    rw [List.foldl_cons]
    exact foldl_dictInsert_ne_nil rest _ (dictInsert_ne_nil d o.player_id o.total_score)

lemma mem_dictKeys_dictInsert {a k : String} {v : Int} :
    ∀ {d : List (String × Int)}, a ∈ dictKeys (dictInsert d k v) →
      a ∈ dictKeys d ∨ a = k := by
  intro d
  induction d with
  | nil =>
    intro h
    simp [dictInsert, dictKeys] at h
    exact Or.inr h
  | cons kv rest ih =>
    obtain ⟨k0, v0⟩ := kv
    intro h
    simp only [dictInsert] at h
    by_cases he : k0 = k
    · rw [if_pos he] at h
      simp only [dictKeys, List.map_cons, List.mem_cons] at h ⊢
      rcases h with h | h
      · exact Or.inr h
      · exact Or.inl (Or.inr h)
    · rw [if_neg he] at h
      simp only [dictKeys, List.map_cons, List.mem_cons] at h ⊢
      rcases h with h | h
      · exact Or.inl (Or.inl h)
      · rcases ih h with h2 | h2
        · exact Or.inl (Or.inr h2)
        · exact Or.inr h2

lemma mem_dictKeys_foldl {a : String} :
    ∀ (l : List OpponentInfo) (d : List (String × Int)),
      a ∈ dictKeys (l.foldl (fun d o => dictInsert d o.player_id o.total_score) d) →
      a ∈ dictKeys d ∨ ∃ o ∈ l, o.player_id = a
  | [], d, h => Or.inl h
  | o :: rest, d, h => by
    rw [List.foldl_cons] at h
    rcases mem_dictKeys_foldl rest _ h with h2 | ⟨o2, ho2, ha⟩
    · rcases mem_dictKeys_dictInsert h2 with h3 | h3
      · exact Or.inl h3
      · exact Or.inr ⟨o, List.mem_cons_self _ _, h3.symm⟩
    · exact Or.inr ⟨o2, List.mem_cons_of_mem _ ho2, ha⟩

lemma dictInsert_of_not_mem {k : String} (v : Int) :
    ∀ {d : List (String × Int)}, k ∉ dictKeys d → dictInsert d k v = d ++ [(k, v)] := by
  intro d
  induction d with
  | nil => intro _; rfl
  | cons kv rest ih =>
    obtain ⟨k0, v0⟩ := kv
    intro h
    simp only [dictKeys, List.map_cons, List.mem_cons, not_or] at h
    have hne : ¬(k0 = k) := fun he => h.1 he.symm
    simp only [dictInsert]
    rw [if_neg hne]
    simp only [List.cons_append, List.cons.injEq, true_and]
    exact ih h.2

lemma foldl_dictInsert_append :
    ∀ (l : List OpponentInfo) (d : List (String × Int)),
      (dictKeys d ++ l.map (fun o => o.player_id)).Nodup →
      l.foldl (fun d o => dictInsert d o.player_id o.total_score) d
        = d ++ l.map (fun o => (o.player_id, o.total_score))
  | [], d, _ => by simp
  | o :: rest, d, hnd => by
    have hmem : o.player_id ∉ dictKeys d := by
      rcases List.nodup_append.mp hnd with ⟨_, _, hdisj⟩
      intro hin
      exact hdisj hin (by simp)
    rw [List.foldl_cons, dictInsert_of_not_mem o.total_score hmem]
    have hkeys : dictKeys (d ++ [(o.player_id, o.total_score)])
        = dictKeys d ++ [o.player_id] := by
      simp [dictKeys]
    have hnd2 : (dictKeys (d ++ [(o.player_id, o.total_score)])
        ++ rest.map (fun o => o.player_id)).Nodup := by
      rw [hkeys, List.append_assoc]
      simpa using hnd
    rw [foldl_dictInsert_append rest _ hnd2]
    simp

lemma dictGet?_map_of_nodup :
    ∀ (l : List OpponentInfo) (o : OpponentInfo),
      (l.map (fun o => o.player_id)).Nodup → o ∈ l →
      dictGet? (l.map (fun o => (o.player_id, o.total_score))) o.player_id
        = some o.total_score
  | [], _, _, ho => absurd ho (List.not_mem_nil _)
  | h :: t, o, hnd, ho => by
    simp only [List.map_cons, dictGet?]
    rcases List.mem_cons.mp ho with rfl | ho2
    · rw [if_pos rfl]
    · have hne : h.player_id ≠ o.player_id := by
        intro he
        have : o.player_id ∈ t.map (fun o => o.player_id) :=
          List.mem_map.mpr ⟨o, ho2, rfl⟩
        rw [List.map_cons, List.nodup_cons] at hnd
        exact hnd.1 (he ▸ this)
      rw [if_neg hne]
      exact dictGet?_map_of_nodup t o (by rw [List.map_cons, List.nodup_cons] at hnd; exact hnd.2) ho2

lemma foldl_pickMax_corr (f : String → Int) :
    ∀ (l : List OpponentInfo) (b : OpponentInfo),
      (∀ o ∈ b :: l, f o.player_id = o.total_score) →
      (l.map (fun o => o.player_id)).foldl
          (fun best y => if f best < f y then y else best) b.player_id
        = (l.foldl (fun best o =>
            if best.total_score < o.total_score then o else best) b).player_id
  | [], _, _ => rfl
  | o :: rest, b, h => by
    simp only [List.map_cons, List.foldl_cons]
    have hb : f b.player_id = b.total_score := h b (List.mem_cons_self _ _)
    have ho : f o.player_id = o.total_score :=
      h o (List.mem_cons_of_mem _ (List.mem_cons_self _ _))
    by_cases hc : b.total_score < o.total_score
    · rw [if_pos (by rw [hb, ho]; exact hc), if_pos hc]
      exact foldl_pickMax_corr f rest o (fun x hx => by
        rcases List.mem_cons.mp hx with rfl | hx2
        · exact ho
        · exact h x (List.mem_cons_of_mem _ (List.mem_cons_of_mem _ hx2)))
    · rw [if_neg (by rw [hb, ho]; exact hc), if_neg hc]
      exact foldl_pickMax_corr f rest b (fun x hx => by
        rcases List.mem_cons.mp hx with rfl | hx2
        · exact hb
        · exact h x (List.mem_cons_of_mem _ (List.mem_cons_of_mem _ hx2)))

lemma foldl_choice_mem {α : Type} (step : α → α → α)
    (hstep : ∀ b y, step b y = b ∨ step b y = y) :
    ∀ (l : List α) (b : α), l.foldl step b = b ∨ l.foldl step b ∈ l
  | [], _ => Or.inl rfl
  | y :: ys, b => by
    rw [List.foldl_cons]
    rcases foldl_choice_mem step hstep ys (step b y) with h | h
    · rw [h]
      rcases hstep b y with h2 | h2
      · exact Or.inl h2
      · rw [h2]
        exact Or.inr (List.mem_cons_self _ _)
    · exact Or.inr (List.mem_cons_of_mem _ h)

lemma foldl_max_split :
    ∀ (l : List OpponentInfo) (b : OpponentInfo),
      (l.foldl (fun best o =>
          if best.total_score < o.total_score then o else best) b = b ∧
        ∀ y ∈ l, y.total_score ≤ b.total_score) ∨
      (∃ l1 o l2, l = l1 ++ o :: l2 ∧
        l.foldl (fun best o =>
          if best.total_score < o.total_score then o else best) b = o ∧
        b.total_score < o.total_score ∧
        (∀ y ∈ l1, y.total_score < o.total_score) ∧
        (∀ y ∈ l2, y.total_score ≤ o.total_score))
  | [], b => Or.inl ⟨rfl, by simp⟩
  | y :: ys, b => by
    simp only [List.foldl_cons]
    by_cases hc : b.total_score < y.total_score
    · rw [if_pos hc]
      rcases foldl_max_split ys y with ⟨heq, hall⟩ | ⟨l1, o, l2, hsp, heq, hlt, hl1, hl2⟩
      · exact Or.inr ⟨[], y, ys, rfl, heq, hc, by simp, hall⟩
      · refine Or.inr ⟨y :: l1, o, l2, by simp [hsp], heq, lt_trans hc hlt, ?_, hl2⟩
        intro z hz
        rcases List.mem_cons.mp hz with rfl | hz2
        · exact hlt
        · exact hl1 z hz2
    · rw [if_neg hc]
      rcases foldl_max_split ys b with ⟨heq, hall⟩ | ⟨l1, o, l2, hsp, heq, hlt, hl1, hl2⟩
      · refine Or.inl ⟨heq, ?_⟩
        intro z hz
        rcases List.mem_cons.mp hz with rfl | hz2
        · exact not_lt.mp hc
        · exact hall z hz2
      · refine Or.inr ⟨y :: l1, o, l2, by simp [hsp], heq, hlt, ?_, hl2⟩
        intro z hz
        rcases List.mem_cons.mp hz with rfl | hz2
        · exact lt_of_le_of_lt (not_lt.mp hc) hlt
        · exact hl1 z hz2

lemma second_filter_eq (l : List OpponentInfo) (pts : List String) :
    l.filter (fun opp =>
      (((l.filter (fun o => pts.contains o.player_id)).map
        (fun o => o.player_id)).contains opp.player_id))
      = l.filter (fun opp => pts.contains opp.player_id) := by
  apply List.filter_congr
  intro o ho
  by_cases hmem : o.player_id ∈ pts
  · have h1 : pts.contains o.player_id = true := List.elem_iff.mpr hmem
    rw [h1]
    exact List.elem_iff.mpr
      (List.mem_map.mpr ⟨o, List.mem_filter.mpr ⟨ho, h1⟩, rfl⟩)
  · have h1 : ¬(pts.contains o.player_id = true) :=
      fun hc => hmem (List.elem_iff.mp hc)
    have h2 : ¬((((l.filter (fun o => pts.contains o.player_id)).map
        (fun o => o.player_id)).contains o.player_id) = true) := by
      intro hc
      obtain ⟨o2, ho2, hpid⟩ := List.mem_map.mp (List.elem_iff.mp hc)
      have hc2 := (List.mem_filter.mp ho2).2
      exact hmem (hpid ▸ List.elem_iff.mp hc2)
    rw [Bool.not_eq_true] at h1 h2
    rw [h1, h2]

lemma stringStep_choice (f : String → Int) (b y : String) :
    (if f b < f y then y else b) = b ∨ (if f b < f y then y else b) = y := by
  by_cases hc : f b < f y
  · rw [if_pos hc]
    exact Or.inr rfl
  · rw [if_neg hc]
    exact Or.inl rfl

lemma decide_flip_three_target_eq (s : ThresholdStrategy) (ctx : StrategyContext)
    (pts : List String) (e : OpponentInfo) (el2 : List OpponentInfo)
    (hel : eligibleOpponents ctx pts = e :: el2)
    (hnd : ((eligibleOpponents ctx pts).map (fun o => o.player_id)).Nodup) :
    s.decide_flip_three_target ctx pts
      = some ((el2.foldl (fun best o =>
          if best.total_score < o.total_score then o else best) e).player_id) := by
  have hel2 : ctx.opponents.filter (fun opp => pts.contains opp.player_id)
      = e :: el2 := hel
  have hnd2 : ((e :: el2).map (fun o => o.player_id)).Nodup := hel ▸ hnd
  simp only [ThresholdStrategy.decide_flip_three_target]
  rw [second_filter_eq ctx.opponents pts, hel2]
  rw [if_neg (by simp)]
  have hdict : (e :: el2).foldl
      (fun d o => dictInsert d o.player_id o.total_score) []
      = (e :: el2).map (fun o => (o.player_id, o.total_score)) := by
    have := foldl_dictInsert_append (e :: el2) [] (by simpa [dictKeys] using hnd2)
    simpa using this
  rw [hdict]
  have hkeys : dictKeys ((e :: el2).map (fun o => (o.player_id, o.total_score)))
      = (e :: el2).map (fun o => o.player_id) := by
    simp [dictKeys, List.map_map]
  rw [hkeys]
  simp only [List.map_cons, pyMaxByKey, Option.some.injEq]
  refine foldl_pickMax_corr _ el2 e (fun o ho => ?_)
  have hg := dictGet?_map_of_nodup (e :: el2) o hnd2 ho
  simp only [List.map_cons] at hg
  rw [hg]
  rfl

lemma decide_freeze_eq_flip (s : ThresholdStrategy) (ctx : StrategyContext)
    (pts : List String) (h : ¬(ctx.my_round_score ≥ s.target_score)) :
    s.decide_freeze_target ctx pts = s.decide_flip_three_target ctx pts := by
  unfold ThresholdStrategy.decide_freeze_target ThresholdStrategy.decide_flip_three_target
  rw [if_neg h]

/-- C5 (amended): when the eligible opponents are non-empty and their
`player_id`s are pairwise distinct, both target-selection methods (the freeze
one under `my_round_score < target_score`) return the id of the eligible
opponent with the highest `total_score`, first in `context.opponents` order on
ties. -/
theorem c5_first_max_selection (s : ThresholdStrategy) (ctx : StrategyContext)
    (pts : List String) (hne : eligibleOpponents ctx pts ≠ [])
    (hnd : ((eligibleOpponents ctx pts).map (fun o => o.player_id)).Nodup) :
    ∃ l1 r l2, eligibleOpponents ctx pts = l1 ++ r :: l2 ∧
      (∀ y ∈ l1, y.total_score < r.total_score) ∧
      (∀ y ∈ eligibleOpponents ctx pts, y.total_score ≤ r.total_score) ∧
      s.decide_flip_three_target ctx pts = some r.player_id ∧
      (ctx.my_round_score < s.target_score →
        s.decide_freeze_target ctx pts = some r.player_id) := by
  obtain ⟨e, el2, hel⟩ := List.exists_cons_of_ne_nil hne
  have hflip := decide_flip_three_target_eq s ctx pts e el2 hel hnd
  have hfrz : ctx.my_round_score < s.target_score →
      s.decide_freeze_target ctx pts
        = some ((el2.foldl (fun best o =>
            if best.total_score < o.total_score then o else best) e).player_id) :=
    fun hlt => (decide_freeze_eq_flip s ctx pts (not_le.mpr hlt)).trans hflip
  rcases foldl_max_split el2 e with ⟨heq, hall⟩ | ⟨l1, o, l2, hsp, heq, hlt, hl1, hl2⟩
  · refine ⟨[], e, el2, by simp [hel], by simp, ?_, ?_, ?_⟩
    · intro y hy
      rw [hel] at hy
      rcases List.mem_cons.mp hy with rfl | hy2
      · exact le_refl _
      · exact hall y hy2
    · rw [hflip, heq]
    · intro h
      rw [hfrz h, heq]
  · refine ⟨e :: l1, o, l2, by simp [hel, hsp], ?_, ?_, ?_, ?_⟩
    · intro y hy
      rcases List.mem_cons.mp hy with rfl | hy2
      · exact hlt
      · exact hl1 y hy2
    · intro y hy
      rw [hel, hsp] at hy
      rcases List.mem_cons.mp hy with rfl | hy2
      · exact le_of_lt hlt
      · rcases List.mem_append.mp hy2 with hy3 | hy3
        · exact le_of_lt (hl1 y hy3)
        · rcases List.mem_cons.mp hy3 with rfl | hy4
          · exact le_refl _
          · exact hl2 y hy4
    · rw [hflip, heq]
    · intro h
      rw [hfrz h, heq]

theorem c5_first_max_selection_witness :
    (eligibleOpponents ⟨"p1", 0, false, 0, [⟨"p2", 80, 0, false, false⟩,
        ⟨"p3", 120, 0, false, false⟩]⟩ ["p2", "p3"] ≠ [] ∧
      ((eligibleOpponents ⟨"p1", 0, false, 0, [⟨"p2", 80, 0, false, false⟩,
        ⟨"p3", 120, 0, false, false⟩]⟩ ["p2", "p3"]).map
          (fun o => o.player_id)).Nodup) ∧
    (∃ l1 r l2, eligibleOpponents ⟨"p1", 0, false, 0, [⟨"p2", 80, 0, false, false⟩,
        ⟨"p3", 120, 0, false, false⟩]⟩ ["p2", "p3"] = l1 ++ r :: l2 ∧
      (∀ y ∈ l1, y.total_score < r.total_score) ∧
      (∀ y ∈ eligibleOpponents ⟨"p1", 0, false, 0, [⟨"p2", 80, 0, false, false⟩,
        ⟨"p3", 120, 0, false, false⟩]⟩ ["p2", "p3"],
          y.total_score ≤ r.total_score) ∧
      ((⟨"T", 100, 0⟩ : ThresholdStrategy)).decide_flip_three_target
        ⟨"p1", 0, false, 0, [⟨"p2", 80, 0, false, false⟩,
          ⟨"p3", 120, 0, false, false⟩]⟩ ["p2", "p3"] = some r.player_id ∧
      ((0 : Int) < ((⟨"T", 100, 0⟩ : ThresholdStrategy)).target_score →
        ((⟨"T", 100, 0⟩ : ThresholdStrategy)).decide_freeze_target
          ⟨"p1", 0, false, 0, [⟨"p2", 80, 0, false, false⟩,
            ⟨"p3", 120, 0, false, false⟩]⟩ ["p2", "p3"] = some r.player_id)) :=
  ⟨⟨by decide, by decide⟩,
    c5_first_max_selection ((⟨"T", 100, 0⟩ : ThresholdStrategy))
      ⟨"p1", 0, false, 0, [⟨"p2", 80, 0, false, false⟩,
        ⟨"p3", 120, 0, false, false⟩]⟩ ["p2", "p3"] (by decide) (by decide)⟩

/-- C5 counterexample: with a duplicated opponent id (`"p1"` occurs with
total scores 100 and 0), the first eligible opponent holds the strictly highest
`total_score` (100, carried by `"p1"`), yet the code returns `"p2"`: the dict
comprehension keeps `"p1"`'s *last* score (0) at its *first* position. -/
theorem c5_counterexample :
    (eligibleOpponents ⟨"me", 0, false, 0, [⟨"p1", 100, 0, false, false⟩,
        ⟨"p2", 50, 0, false, false⟩, ⟨"p1", 0, 0, false, false⟩]⟩
        ["p1", "p2"]).head? = some ⟨"p1", 100, 0, false, false⟩ ∧
    ((eligibleOpponents ⟨"me", 0, false, 0, [⟨"p1", 100, 0, false, false⟩,
        ⟨"p2", 50, 0, false, false⟩, ⟨"p1", 0, 0, false, false⟩]⟩
        ["p1", "p2"]).all (fun o => decide (o.total_score ≤ 100))) = true ∧
    ((eligibleOpponents ⟨"me", 0, false, 0, [⟨"p1", 100, 0, false, false⟩,
        ⟨"p2", 50, 0, false, false⟩, ⟨"p1", 0, 0, false, false⟩]⟩
        ["p1", "p2"]).all (fun o => decide (o.player_id = "p1" → o.total_score < 100 ∨ o = ⟨"p1", 100, 0, false, false⟩))) = true ∧
    ((⟨"T", 100, 0⟩ : ThresholdStrategy)).decide_flip_three_target
      ⟨"me", 0, false, 0, [⟨"p1", 100, 0, false, false⟩,
        ⟨"p2", 50, 0, false, false⟩, ⟨"p1", 0, 0, false, false⟩]⟩
      ["p1", "p2"] = some ("p2") := by
  decide

/-- C3 (amended): the call always returns a value; when some opponent is
eligible (the eligible set is non-empty) the returned id is drawn from
`possible_targets`, and when no opponent is eligible it is the caller's own
`my_player_id` (which need not be in `possible_targets`). -/
theorem c3_target_in_possible_or_self (s : ThresholdStrategy)
    (ctx : StrategyContext) (pts : List String) :
    ∃ p, s.decide_flip_three_target ctx pts = some p ∧
      (eligibleOpponents ctx pts ≠ [] → p ∈ pts) ∧
      (eligibleOpponents ctx pts = [] → p = ctx.my_player_id) := by
  by_cases hel : ctx.opponents.filter (fun opp => pts.contains opp.player_id) = []
  · refine ⟨ctx.my_player_id, ?_, fun hne => absurd hel hne, fun _ => rfl⟩
    simp only [ThresholdStrategy.decide_flip_three_target]
    rw [hel]
    simp
  · obtain ⟨e, el2, helq⟩ := List.exists_cons_of_ne_nil hel
    have hkeys : ∀ a, a ∈ dictKeys ((e :: el2).foldl
        (fun d o => dictInsert d o.player_id o.total_score) []) → a ∈ pts := by
      intro a ha
      rcases mem_dictKeys_foldl (e :: el2) [] ha with h0 | ⟨o, ho, hpid⟩
      · simp [dictKeys] at h0
      · rw [← helq] at ho
        have hc := (List.mem_filter.mp ho).2
        exact hpid ▸ List.elem_iff.mp hc
    simp only [ThresholdStrategy.decide_flip_three_target]
    rw [second_filter_eq ctx.opponents pts, helq]
    rw [if_neg (by simp)]
    have hdne : (e :: el2).foldl
        (fun d o => dictInsert d o.player_id o.total_score) [] ≠ [] := by
      rw [List.foldl_cons]
      exact foldl_dictInsert_ne_nil el2 _ (dictInsert_ne_nil _ _ _)
    obtain ⟨kv, drest, hd⟩ := List.exists_cons_of_ne_nil hdne
    rw [hd] at hkeys
    rw [hd]
    obtain ⟨k0, v0⟩ := kv
    simp only [dictKeys, List.map_cons, pyMaxByKey]
    refine ⟨_, rfl, fun _ => ?_, fun heq => absurd heq hel⟩
    apply hkeys
    simp only [dictKeys, List.map_cons]
    rcases foldl_choice_mem _
        (stringStep_choice (fun pid =>
          (dictGet? ((k0, v0) :: drest) pid).getD 0))
        (drest.map Prod.fst) k0 with h | h
    · rw [h]
      exact List.mem_cons_self _ _
    · exact List.mem_cons_of_mem _ h

theorem c3_target_in_possible_or_self_witness :
    ∃ p, (⟨"T", 100, 0⟩ : ThresholdStrategy).decide_flip_three_target
        ⟨"p1", 0, false, 0, [⟨"p2", 80, 0, false, false⟩,
          ⟨"p3", 120, 0, false, false⟩]⟩ ["p2", "p3"] = some p ∧
      p ∈ (["p2", "p3"] : List String) :=
  match c3_target_in_possible_or_self (⟨"T", 100, 0⟩ : ThresholdStrategy)
      ⟨"p1", 0, false, 0, [⟨"p2", 80, 0, false, false⟩,
        ⟨"p3", 120, 0, false, false⟩]⟩ ["p2", "p3"] with
  | ⟨p, h1, h2, _⟩ => ⟨p, h1, h2 (by decide)⟩

/-- C3 counterexample: with no opponents at all and `possible_targets` not
containing the caller, the returned id `"p1"` is not drawn from
`possible_targets = ["p2"]`. -/
theorem c3_counterexample :
    ((⟨"T", 100, 0⟩ : ThresholdStrategy)).decide_flip_three_target
      ⟨"p1", 0, false, 0, []⟩ ["p2"] = some ("p1") ∧
    ("p1" ∈ (["p2"] : List String)) = False := by
  constructor
  · decide
  · simp

/-- C7: when no opponent's id occurs in `possible_targets`, both
`decide_flip_three_target` and `decide_freeze_target` return the caller's own
`my_player_id`. -/
theorem c7_self_when_no_eligible (s : ThresholdStrategy) (ctx : StrategyContext)
    (pts : List String) (h : ∀ o ∈ ctx.opponents, o.player_id ∉ pts) :
    s.decide_flip_three_target ctx pts = some ctx.my_player_id ∧
    s.decide_freeze_target ctx pts = some ctx.my_player_id := by
  have hfil : ctx.opponents.filter (fun opp => pts.contains opp.player_id) = [] :=
    List.filter_eq_nil_iff.mpr
      (fun o ho hc => h o ho (List.elem_iff.mp hc))
  constructor
  · simp only [ThresholdStrategy.decide_flip_three_target]
    rw [hfil]
    simp
  · simp only [ThresholdStrategy.decide_freeze_target]
    by_cases hge : ctx.my_round_score ≥ s.target_score
    · rw [if_pos hge]
    · rw [if_neg hge, hfil]
      simp

theorem c7_self_when_no_eligible_witness :
    (∀ o ∈ (⟨"p1", 0, false, 0, [⟨"p2", 300, 0, false, false⟩]⟩
        : StrategyContext).opponents, o.player_id ∉ (["p9"] : List String)) ∧
    (((⟨"T", 100, 0⟩ : ThresholdStrategy)).decide_flip_three_target
        ⟨"p1", 0, false, 0, [⟨"p2", 300, 0, false, false⟩]⟩ ["p9"]
        = some ("p1") ∧
      ((⟨"T", 100, 0⟩ : ThresholdStrategy)).decide_freeze_target
        ⟨"p1", 0, false, 0, [⟨"p2", 300, 0, false, false⟩]⟩ ["p9"]
        = some ("p1")) :=
  ⟨by decide,
    c7_self_when_no_eligible ((⟨"T", 100, 0⟩ : ThresholdStrategy))
      ⟨"p1", 0, false, 0, [⟨"p2", 300, 0, false, false⟩]⟩ ["p9"] (by decide)⟩
